import Mathlib

/-!
# Verification of the PyLTSpice LTSteps command-line layer and LTspice simulator glue

Shallow embedding of `PyLTSpice/LTSteps.py` (the command-line entry point: file
selection, output-name computation and the per-extension processing dispatch) and of
`PyLTSpice/sim/ltspice_simulator.py` (`LTspiceSimulator`).  The parsing core
(`PyLTSpice.log.ltsteps`: `LTSpiceLogReader`, `reformat_LTSpice_export`, the numeric
normalizer) is not part of the sources; those components are modelled from the
specification, as marked on each definition.

Python strings are modelled as `List Char`; file modification times as `Nat`
(seconds since the epoch); Python exceptions as `Except` results.
-/

namespace PyLTSpice

/-- A Python string (here: a file name or path), modelled as its list of characters. -/
abbrev PyStr := List Char

/-- Characters of a literal. -/
def str (s : String) : PyStr := s.data

/-- Python `filename.endswith(suffix)`. -/
def endswith (filename suffix : PyStr) : Bool := suffix.isSuffixOf filename

/-- Python slice `s[:-k]`: everything but the last `k` characters. -/
def cutRight (s : PyStr) (k : Nat) : PyStr := s.take (s.length - k)

/-- `valid_extension` from `LTSteps.py`: the file name ends with `.txt`, `.log` or
`.mout`. -/
def valid_extension (filename : PyStr) : Bool :=
  endswith filename (str ".txt") || endswith filename (str ".log") ||
    endswith filename (str ".mout")

/-- Output-name selection, `LTSteps.py` lines 114-124: `filename[:-len('txt')] + 'tsv'`
for a `.txt` file, `filename[:-len('log')] + 'tlog'` for a `.log` file,
`filename[:-len('mout')] + 'tmout'` for a `.mout` file, nothing otherwise. -/
def fname_out (filename : PyStr) : Option PyStr :=
  if endswith filename (str ".txt") then some (cutRight filename 3 ++ str "tsv")
  else if endswith filename (str ".log") then some (cutRight filename 3 ++ str "tlog")
  else if endswith filename (str ".mout") then some (cutRight filename 4 ++ str "tmout")
  else none

/-- Companion log path computed in the `.mout` branch, `LTSteps.py` line 137:
`log_file = filename[:len('mout')] + 'log'`, i.e. the first four characters of the
input name followed by `log`. -/
def mout_companion_log (filename : PyStr) : PyStr :=
  filename.take (str "mout").length ++ str "log"

/-- The companion log path the specification describes: the input path with its
`.mout` extension replaced by `.log`, i.e. `filename[:-len('mout')] + 'log'`. -/
def spec_companion_log (filename : PyStr) : PyStr :=
  cutRight filename 4 ++ str "log"

/-- Observable file-system effects of the processing stage of `LTSteps.py`. -/
inductive Effect where
  | reformat (src dst : PyStr)
  | readLog (src : PyStr) (read_measures : Bool)
  | export_data (dst : PyStr)
deriving DecidableEq, Repr

/-- Whether an effect is a call of the export routine. -/
def Effect.isExport : Effect → Bool
  | .export_data _ => true
  | _ => false

/-- Processing dispatch, `LTSteps.py` lines 126-147, as the list of effects it
performs.  `log_exists` stands for `os.path.exists(log_file)` in the `.mout` branch.
In that branch the export routine is called twice (lines 146 and 147). -/
def process_file (filename : PyStr) (log_exists : Bool) : List Effect :=
  match fname_out filename with
  | none => []
  | some out =>
    if endswith filename (str "txt") then [.reformat filename out]
    else if endswith filename (str "log") then [.readLog filename true, .export_data out]
    else if endswith filename (str ".mout") then
      (if log_exists then
        [.readLog (mout_companion_log filename) false, .readLog filename true]
      else [.readLog filename true]) ++ [.export_data out, .export_data out]
    else []

theorem endswith_append (s p : PyStr) : endswith (s ++ p) p = true := by
  simp [endswith, List.isSuffixOf_iff_suffix]

theorem endswith_false_of_endswith {l p q : PyStr} (hq : endswith l q = true)
    (h1 : endswith q p = false) (h2 : endswith p q = false) : endswith l p = false := by
  rcases Bool.eq_false_or_eq_true (endswith l p) with h | h
  · exfalso
    have hq' : q <:+ l := by simpa [endswith, List.isSuffixOf_iff_suffix] using hq
    have hp : p <:+ l := by simpa [endswith, List.isSuffixOf_iff_suffix] using h
    rcases List.suffix_or_suffix_of_suffix hp hq' with hc | hc
    · have hb : endswith q p = true := by
        simpa [endswith, List.isSuffixOf_iff_suffix] using hc
      rw [h1] at hb
      exact Bool.false_ne_true hb
    · have hb : endswith p q = true := by
        simpa [endswith, List.isSuffixOf_iff_suffix] using hc
      rw [h2] at hb
      exact Bool.false_ne_true hb
  · exact h

theorem cutRight_append {p : PyStr} (s : PyStr) (k : Nat) (h : k ≤ p.length) :
    cutRight (s ++ p) k = s ++ p.take (p.length - k) := by
  simp only [cutRight, List.length_append]
  rw [Nat.add_sub_assoc h, List.take_append_eq_append_take,
    List.take_of_length_le (by omega), Nat.add_sub_cancel_left]

/-- C5: for every accepted input filename, the output filename is the input with its
extension replaced per the convention: a `.log` file maps to `.tlog` (the log-family
member of the `.tlog`/`.tout` convention), an export-txt `.txt` file maps to
`.tsv`, and a measurement-script `.mout` file maps to `.tmout`. -/
theorem fname_out_extension_convention (s : PyStr) :
    fname_out (s ++ str ".log") = some (s ++ str ".tlog") ∧
    fname_out (s ++ str ".txt") = some (s ++ str ".tsv") ∧
    fname_out (s ++ str ".mout") = some (s ++ str ".tmout") := by
  refine ⟨?_, ?_, ?_⟩
  · have h0 : endswith (s ++ str ".log") (str ".log") = true := endswith_append s _
    have h1 : endswith (s ++ str ".log") (str ".txt") = false :=
      endswith_false_of_endswith h0 (by decide) (by decide)
    rw [fname_out, if_neg (by simp [h1]), if_pos (by simp [h0]),
      cutRight_append s 3 (by decide), List.append_assoc]
    rfl
  · have h0 : endswith (s ++ str ".txt") (str ".txt") = true := endswith_append s _
    rw [fname_out, if_pos (by simp [h0]), cutRight_append s 3 (by decide),
      List.append_assoc]
    rfl
  · have h0 : endswith (s ++ str ".mout") (str ".mout") = true := endswith_append s _
    have h1 : endswith (s ++ str ".mout") (str ".txt") = false :=
      endswith_false_of_endswith h0 (by decide) (by decide)
    have h2 : endswith (s ++ str ".mout") (str ".log") = false :=
      endswith_false_of_endswith h0 (by decide) (by decide)
    rw [fname_out, if_neg (by simp [h1]), if_neg (by simp [h2]), if_pos (by simp [h0]),
      cutRight_append s 4 (by decide), List.append_assoc]
    rfl

/-- Closed instance of `fname_out_extension_convention` at the name stem `circuit`. -/
theorem fname_out_extension_convention_witness :
    fname_out (str "circuit" ++ str ".log") = some (str "circuit" ++ str ".tlog") :=
  (fname_out_extension_convention (str "circuit")).1

/-- C1: evaluation of the companion-log-path computation of the `.mout` branch at the
input `circuit.mout`: the code opens `circlog` (the first four characters of the name
followed by `log`), not the sibling `circuit.log` that the specification describes
(the `.mout` extension replaced by `.log`). -/
theorem mout_companion_log_bug :
    mout_companion_log (str "circuit.mout") = str "circlog" ∧
    spec_companion_log (str "circuit.mout") = str "circuit.log" ∧
    mout_companion_log (str "circuit.mout") ≠ spec_companion_log (str "circuit.mout") := by
  decide

/-- C2: for every `.mout` input processed, the export routine is invoked exactly twice,
both times on the same output file path `filename[:-len('mout')] + 'tmout'`. -/
theorem process_mout_exports_twice (filename : PyStr) (log_exists : Bool)
    (h : endswith filename (str ".mout") = true) :
    (process_file filename log_exists).filter Effect.isExport =
      [.export_data (cutRight filename 4 ++ str "tmout"),
       .export_data (cutRight filename 4 ++ str "tmout")] := by
  have h1 : endswith filename (str ".txt") = false :=
    endswith_false_of_endswith h (by decide) (by decide)
  have h2 : endswith filename (str ".log") = false :=
    endswith_false_of_endswith h (by decide) (by decide)
  have h3 : endswith filename (str "txt") = false :=
    endswith_false_of_endswith h (by decide) (by decide)
  have h4 : endswith filename (str "log") = false :=
    endswith_false_of_endswith h (by decide) (by decide)
  cases log_exists <;>
    simp [process_file, fname_out, h, h1, h2, h3, h4, Effect.isExport]

/-- Closed instance of `process_mout_exports_twice` at the input `circuit.mout`. -/
theorem process_mout_exports_twice_witness :
    (process_file (str "circuit.mout") true).filter Effect.isExport =
      [.export_data (cutRight (str "circuit.mout") 4 ++ str "tmout"),
       .export_data (cutRight (str "circuit.mout") 4 ++ str "tmout")] :=
  process_mout_exports_twice (str "circuit.mout") true (by decide)

/-- Parse-time error kinds (spec section 7). -/
inductive ParseError where
  | MalformedNumber
  | StepOutOfRange
  | ColumnCountMismatch
  | UnknownStep
  | UnsupportedFormat
deriving DecidableEq, Repr

/-- A directory entry as seen by the file-selection loop: its name and its
modification time (`os.path.getmtime`, in seconds since the epoch). -/
structure DirEntry where
  name : PyStr
  mtime : Nat
deriving DecidableEq, Repr

/-- One iteration of the file-selection loop, `LTSteps.py` lines 104-108:
`if date > newer_date and valid_extension(f)` update the kept name and date. -/
def select_step (acc : Option PyStr × Nat) (f : DirEntry) : Option PyStr × Nat :=
  if acc.2 < f.mtime ∧ valid_extension f.name = true then (some f.name, f.mtime) else acc

/-- File selection with no argument, `LTSteps.py` lines 101-108: scan `os.listdir()`
keeping the newest file with a valid extension; `filename` starts as `None` and
`newer_date` as 0, and the date comparison is strict. -/
def select_newest (dir : List DirEntry) : Option PyStr × Nat :=
  dir.foldl select_step (none, 0)

/-- Exit behaviour of the command-line entry point, `LTSteps.py` lines 95-112 plus the
processing stage: an explicitly given name must have a valid extension, otherwise
`exit(-1)`; with no argument the newest valid directory entry is looked for, with
`exit(-1)` when none is found; afterwards the file is processed, and an uncaught
parse error terminates the interpreter with exit code 1, success with 0. -/
def cli_exit_code (argv : List PyStr) (dir : List DirEntry)
    (parse : Except ParseError Unit) : Int :=
  match argv with
  | f :: _ =>
    if valid_extension f = true then
      (match parse with | .ok _ => 0 | .error _ => 1)
    else -1
  | [] =>
    match (select_newest dir).1 with
    | some _ => (match parse with | .ok _ => 0 | .error _ => 1)
    | none => -1

theorem select_step_snd_le (acc : Option PyStr × Nat) (dir : List DirEntry) :
    acc.2 ≤ (dir.foldl select_step acc).2 := by
  induction dir generalizing acc with
  | nil => exact Nat.le_refl _
  | cons a as ih =>
    rw [List.foldl_cons]
    refine Nat.le_trans ?_ (ih (select_step acc a))
    by_cases h : acc.2 < a.mtime ∧ valid_extension a.name = true
    · simp only [select_step]
      rw [if_pos h]
      exact Nat.le_of_lt h.1
    · simp only [select_step]
      rw [if_neg h]

theorem select_newest_upper (dir : List DirEntry) (acc : Option PyStr × Nat)
    (e : DirEntry) (he : e ∈ dir) (hv : valid_extension e.name = true) :
    e.mtime ≤ (dir.foldl select_step acc).2 := by
  induction dir generalizing acc with
  | nil => cases he
  | cons a as ih =>
    rw [List.foldl_cons]
    rcases List.mem_cons.mp he with rfl | hmem
    · refine Nat.le_trans ?_ (select_step_snd_le (select_step acc e) as)
      by_cases h : acc.2 < e.mtime ∧ valid_extension e.name = true
      · simp only [select_step]
        rw [if_pos h]
      · simp only [select_step]
        rw [if_neg h]
        rcases Nat.lt_or_ge acc.2 e.mtime with hlt | hge
        · exact absurd ⟨hlt, hv⟩ h
        · exact hge
    · exact ih (select_step acc a) hmem

theorem select_newest_mem (dir : List DirEntry) (acc : Option PyStr × Nat) :
    dir.foldl select_step acc = acc ∨
      ∃ e, e ∈ dir ∧ dir.foldl select_step acc = (some e.name, e.mtime) ∧
        valid_extension e.name = true := by
  induction dir generalizing acc with
  | nil => exact Or.inl rfl
  | cons a as ih =>
    rw [List.foldl_cons]
    rcases ih (select_step acc a) with h | ⟨e, hmem, heq, hval⟩
    · rw [h]
      by_cases hc : acc.2 < a.mtime ∧ valid_extension a.name = true
      · refine Or.inr ⟨a, List.mem_cons_self a as, ?_, hc.2⟩
        simp only [select_step]
        rw [if_pos hc]
      · left
        simp only [select_step]
        rw [if_neg hc]
    · exact Or.inr ⟨e, List.mem_cons_of_mem a hmem, heq, hval⟩

theorem select_newest_of_no_positive (dir : List DirEntry)
    (h : ∀ e, e ∈ dir → valid_extension e.name = true → e.mtime = 0) :
    dir.foldl select_step (none, 0) = ((none : Option PyStr), 0) := by
  induction dir with
  | nil => rfl
  | cons a as ih =>
    rw [List.foldl_cons]
    have hstep : select_step ((none : Option PyStr), 0) a = (none, 0) := by
      simp only [select_step]
      rw [if_neg]
      intro hc
      have h1 : 0 < a.mtime := hc.1
      have h0 : a.mtime = 0 := h a (List.mem_cons_self a as) hc.2
      omega
    rw [hstep]
    exact ih (fun e he hv => h e (List.mem_cons_of_mem a he) hv)

/-- C6 (counterexample to the claim as stated): with no argument and a directory whose
only entry `a.txt` has modification time 0 (the epoch itself), a file matching the
extension filter exists, yet the strict `date > newer_date` comparison against the
initial 0 never fires, no file is selected, and the process exits -1. -/
theorem select_newest_epoch_counterexample :
    valid_extension (str "a.txt") = true ∧
    (select_newest [⟨str "a.txt", 0⟩]).1 = none ∧
    cli_exit_code [] [⟨str "a.txt", 0⟩] (.ok ()) = -1 := by
  decide

/-- C6 (amended): with no file path the CLI selects a most-recently-modified
valid-extension file among those with modification time strictly after the epoch:
whenever such an entry exists, the selection returns the name of an actual directory
entry with a valid extension whose date is maximal among all valid entries.  When no
valid-extension entry of positive modification time exists — every valid entry, if
any, dates from the epoch itself — nothing is selected and the exit code is
non-zero; an explicitly given path with an unsupported extension exits non-zero; and
every parse failure exits non-zero. -/
theorem cli_selection_and_exit_codes (dir : List DirEntry) :
    (∀ e, e ∈ dir → valid_extension e.name = true → 0 < e.mtime →
      ∃ f, (select_newest dir).1 = some f ∧ valid_extension f = true ∧
        (∃ e2, e2 ∈ dir ∧ e2.name = f ∧ e2.mtime = (select_newest dir).2) ∧
        (∀ e3, e3 ∈ dir → valid_extension e3.name = true →
          e3.mtime ≤ (select_newest dir).2)) ∧
    ((∀ e, e ∈ dir → valid_extension e.name = true → e.mtime = 0) →
      ∀ parse, cli_exit_code [] dir parse ≠ 0) ∧
    (∀ f argv parse, valid_extension f = false →
      cli_exit_code (f :: argv) dir parse ≠ 0) ∧
    (∀ argv err, cli_exit_code argv dir (.error err) ≠ 0) := by
  refine ⟨?_, ?_, ?_, ?_⟩
  · intro e he hv hpos
    rcases select_newest_mem dir (none, 0) with h | ⟨e2, hmem, heq, hval⟩
    · exfalso
      have hle := select_newest_upper dir (none, 0) e he hv
      rw [h] at hle
      omega
    · refine ⟨e2.name, ?_, hval, ⟨e2, hmem, rfl, ?_⟩, ?_⟩
      · rw [select_newest, heq]
      · rw [select_newest, heq]
      · intro e3 h3 hv3
        exact select_newest_upper dir (none, 0) e3 h3 hv3
  · intro hzero parse
    have h := select_newest_of_no_positive dir hzero
    have hsel : (select_newest dir).1 = none := by rw [select_newest, h]
    norm_num [cli_exit_code, hsel]
  · intro f argv parse hv
    norm_num [cli_exit_code, hv]
  · intro argv err
    cases argv with
    | nil =>
      cases hsel : (select_newest dir).1 with
      | none => norm_num [cli_exit_code, hsel]
      | some f => norm_num [cli_exit_code, hsel]
    | cons f rest =>
      by_cases hval : valid_extension f = true
      · norm_num [cli_exit_code, hval]
      · norm_num [cli_exit_code, hval]

/-- Closed instance of `cli_selection_and_exit_codes`: in a directory holding `a.txt`
of date 5 and `b.log` of date 3, a valid file of positive date exists, so some file
with a valid extension and maximal date among the valid entries is selected. -/
theorem cli_selection_and_exit_codes_witness :
    ∃ f, (select_newest [⟨str "a.txt", 5⟩, ⟨str "b.log", 3⟩]).1 = some f ∧
      valid_extension f = true ∧
      (∃ e2, e2 ∈ [DirEntry.mk (str "a.txt") 5, DirEntry.mk (str "b.log") 3] ∧
        e2.name = f ∧
        e2.mtime = (select_newest [⟨str "a.txt", 5⟩, ⟨str "b.log", 3⟩]).2) ∧
      (∀ e3, e3 ∈ [DirEntry.mk (str "a.txt") 5, DirEntry.mk (str "b.log") 3] →
        valid_extension e3.name = true →
        e3.mtime ≤ (select_newest [⟨str "a.txt", 5⟩, ⟨str "b.log", 3⟩]).2) :=
  (cli_selection_and_exit_codes [⟨str "a.txt", 5⟩, ⟨str "b.log", 3⟩]).1
    ⟨str "a.txt", 5⟩ (by decide) (by decide) (by decide)

/-- Which complex encoding a value was read in (spec section 3): real/imaginary or
magnitude/phase. -/
inductive Encoding where
  | realImag
  | magPhase
deriving DecidableEq, Repr

/-- Modelled from the spec: the canonical numeric representation produced by the
Numeric Normalizer of `PyLTSpice.log.ltsteps` (not under the sources): a scalar, or a
complex value carrying its two numeric components together with the origin flag
recording which encoding was used, so re-splitting is lossless (spec sections 3 and
4.1). -/
inductive NumValue where
  | scalar (x : ℚ)
  | complex (c1 c2 : ℚ) (enc : Encoding)
deriving DecidableEq, Repr

/-- Modelled from the spec: `split` of the Numeric Normalizer (spec 4.1): a scalar
yields a single unlabeled component; a complex value yields its two components,
labeled per the encoding convention it was read in. -/
def split_value : NumValue → List (String × ℚ)
  | .scalar x => [("", x)]
  | .complex c1 c2 .realImag => [("(real)", c1), ("(imag)", c2)]
  | .complex c1 c2 .magPhase => [("(mag)", c1), ("(phase)", c2)]

/-- Modelled from the spec: re-joining labeled components into one value, recovering
the encoding convention from the component labels (spec 4.1 and section 8). -/
def join_value : List (String × ℚ) → Option NumValue
  | [(lbl, x)] => if lbl = "" then some (.scalar x) else none
  | [(l1, c1), (l2, c2)] =>
    if l1 = "(real)" ∧ l2 = "(imag)" then some (.complex c1 c2 .realImag)
    else if l1 = "(mag)" ∧ l2 = "(phase)" then some (.complex c1 c2 .magPhase)
    else none
  | _ => none

/-- C8: splitting any value into its labeled components per its recorded encoding and
re-joining those components reconstructs the original value exactly — in particular
within any numeric tolerance (round-trip law). -/
theorem split_join_roundtrip (v : NumValue) : join_value (split_value v) = some v := by
  cases v with
  | scalar x => rfl
  | complex c1 c2 enc => cases enc <;> rfl

/-- Parameter assignments of one step: name to value pairs (spec section 3). -/
abbrev StepParams := List (String × ℚ)

/-- Modelled from the spec: the Step Table of `PyLTSpice.log.ltsteps` (not under the
sources): an ordered collection of sweep-step records, each carrying its 1-based
integer index (spec 4.2). -/
structure StepTable where
  steps : List (Nat × StepParams)
deriving DecidableEq, Repr

/-- The empty Step Table. -/
def StepTable.empty : StepTable := ⟨[]⟩

/-- Modelled from the spec: `add_step` appends a new step, assigns it the next
integer index and returns that index (spec 4.2). -/
def add_step (st : StepTable) (params : StepParams) : StepTable × Nat :=
  (⟨st.steps ++ [(st.steps.length + 1, params)]⟩, st.steps.length + 1)

/-- Modelled from the spec: one record of the Measurement Table (spec sections 3 and
4.3): measurement name, the step it is attributed to, its normalized value and the
optional FROM/TO range annotations. -/
structure MeasRecord where
  name : String
  step : Nat
  value : NumValue
  range_from : Option ℚ
  range_to : Option ℚ
deriving DecidableEq, Repr

/-- Modelled from the spec: the classified lines of a simulator log file (spec 4.4):
a `.STEP` directive echo carrying its `name=value` pairs, a `.MEAS` result line
carrying the step index it is reported for, its normalized value and optional
FROM/TO range, or any other line. -/
inductive LogLine where
  | stepDirective (params : StepParams)
  | measResult (name : String) (step : Nat) (value : NumValue)
      (range_from range_to : Option ℚ)
  | other
deriving DecidableEq, Repr

/-- Whether a log line is a step-directive echo. -/
def LogLine.isStep : LogLine → Bool
  | .stepDirective _ => true
  | _ => false

/-- Modelled from the spec: the tables built by `LTSpiceLogReader` of
`PyLTSpice.log.ltsteps` (not under the sources): the Step Table and the Measurement
Table (spec 4.4). -/
structure LogReaderState where
  stepset : StepTable
  measurements : List MeasRecord
deriving DecidableEq, Repr

/-- Modelled from the spec: one line of the Log Format Parser (spec 4.4).  A step
directive registers the next step in the Step Table; a measurement line must
reference a step no higher than the highest step seen so far (an implicit single
step 1 when no directive was seen) and fails with `StepOutOfRange` beyond it; when
`read_measures` is false, measurement lines are skipped entirely. -/
def read_log_line (read_measures : Bool) (st : LogReaderState) :
    LogLine → Except ParseError LogReaderState
  | .stepDirective ps => .ok { st with stepset := (add_step st.stepset ps).1 }
  | .measResult name k v f t =>
    if read_measures then
      if 1 ≤ k ∧ k ≤ max st.stepset.steps.length 1 then
        .ok { st with measurements := st.measurements ++ [⟨name, k, v, f, t⟩] }
      else .error .StepOutOfRange
    else .ok st
  | .other => .ok st

/-- Modelled from the spec: the line-by-line, fail-fast scan of the Log Format Parser
(spec 4.4). -/
def read_log_lines (read_measures : Bool) (st : LogReaderState) :
    List LogLine → Except ParseError LogReaderState
  | [] => .ok st
  | l :: rest =>
    match read_log_line read_measures st l with
    | .ok st2 => read_log_lines read_measures st2 rest
    | .error e => .error e

/-- Modelled from the spec: `LTSpiceLogReader` (module `PyLTSpice.log.ltsteps`, not
under the sources): parse a whole log file starting from empty tables (spec 4.4). -/
def read_log (read_measures : Bool) (lines : List LogLine) :
    Except ParseError LogReaderState :=
  read_log_lines read_measures ⟨StepTable.empty, []⟩ lines

theorem read_log_lines_append (rm : Bool) (s0 : LogReaderState)
    (l1 l2 : List LogLine) :
    read_log_lines rm s0 (l1 ++ l2) =
      match read_log_lines rm s0 l1 with
      | .ok s1 => read_log_lines rm s1 l2
      | .error e => .error e := by
  induction l1 generalizing s0 with
  | nil => rfl
  | cons a as ih =>
    simp only [List.cons_append, read_log_lines]
    cases read_log_line rm s0 a with
    | ok s1 => exact ih s1
    | error e => rfl

theorem read_log_lines_indices (rm : Bool) (lines : List LogLine)
    (st : LogReaderState) :
    ∀ s0, read_log_lines rm s0 lines = .ok st →
      st.stepset.steps.map Prod.fst =
        s0.stepset.steps.map Prod.fst ++
          List.range' (s0.stepset.steps.length + 1) (lines.countP LogLine.isStep) := by
  induction lines with
  | nil =>
    intro s0 h
    simp only [read_log_lines] at h
    injection h with h
    rw [← h]
    simp
  | cons a as ih =>
    intro s0 h
    cases a with
    | stepDirective ps =>
      simp only [read_log_lines, read_log_line] at h
      have hih := ih _ h
      rw [hih]
      simp [add_step, List.countP_cons, LogLine.isStep, List.range'_succ,
        Nat.add_assoc, Nat.add_comm]
    | measResult name k v f t =>
      cases rm with
      | false =>
        simp only [read_log_lines, read_log_line, Bool.false_eq_true, if_false] at h
        have hih := ih _ h
        rw [hih]
        simp [List.countP_cons, LogLine.isStep]
      | true =>
        simp only [read_log_lines, read_log_line, if_true] at h
        by_cases hc : 1 ≤ k ∧ k ≤ max s0.stepset.steps.length 1
        · rw [if_pos hc] at h
          have hih := ih _ h
          rw [hih]
          simp [List.countP_cons, LogLine.isStep]
        · rw [if_neg hc] at h
          cases h
    | other =>
      simp only [read_log_lines, read_log_line] at h
      have hih := ih _ h
      rw [hih]
      simp [List.countP_cons, LogLine.isStep]

/-- C4: for every log file whose parse succeeds, with N step directives in the file,
the resulting Step Table holds exactly N steps and their indices are exactly
1..N in order — contiguous, no gaps, no duplicates; and `add_step` always assigns
the next integer index. -/
theorem step_table_indices (read_measures : Bool) (lines : List LogLine)
    (st : LogReaderState) (h : read_log read_measures lines = .ok st) :
    st.stepset.steps.length = lines.countP LogLine.isStep ∧
    st.stepset.steps.map Prod.fst = List.range' 1 (lines.countP LogLine.isStep) ∧
    (∀ s ps, (add_step s ps).2 = s.steps.length + 1) := by
  have haux := read_log_lines_indices read_measures lines st ⟨StepTable.empty, []⟩ h
  simp only [StepTable.empty, List.map_nil, List.length_nil, List.nil_append,
    Nat.zero_add] at haux
  refine ⟨?_, haux, fun s ps => rfl⟩
  have hlen := congrArg List.length haux
  simpa using hlen

/-- Closed instance of `step_table_indices`: a log with two step directives parses to
a Step Table with indices exactly 1, 2. -/
theorem step_table_indices_witness :
    (LogReaderState.mk ⟨[(1, []), (2, [])]⟩ []).stepset.steps.length =
      List.countP LogLine.isStep
        [LogLine.stepDirective [], LogLine.other, LogLine.stepDirective []] ∧
    (LogReaderState.mk ⟨[(1, []), (2, [])]⟩ []).stepset.steps.map Prod.fst =
      List.range' 1 (List.countP LogLine.isStep
        [LogLine.stepDirective [], LogLine.other, LogLine.stepDirective []]) ∧
    (∀ s ps, (add_step s ps).2 = s.steps.length + 1) :=
  step_table_indices true
    [LogLine.stepDirective [], LogLine.other, LogLine.stepDirective []]
    (LogReaderState.mk ⟨[(1, []), (2, [])]⟩ []) rfl

/-- C3: during a log parse, a measurement line referencing a step index beyond the
highest step seen so far makes the whole parse fail with `StepOutOfRange`. -/
theorem meas_step_out_of_range (pre post : List LogLine) (name : String) (k : Nat)
    (v : NumValue) (f t : Option ℚ) (st : LogReaderState)
    (hpre : read_log true pre = .ok st)
    (hk : max st.stepset.steps.length 1 < k) :
    read_log true (pre ++ .measResult name k v f t :: post) =
      .error .StepOutOfRange := by
  rw [read_log] at hpre ⊢
  rw [read_log_lines_append, hpre]
  simp only [read_log_lines, read_log_line, if_true]
  rw [if_neg (by omega)]

/-- Closed instance of `meas_step_out_of_range`: a measurement referencing step 5
when only 3 steps exist fails with `StepOutOfRange`. -/
theorem meas_step_out_of_range_witness :
    read_log true
      ([LogLine.stepDirective [], LogLine.stepDirective [], LogLine.stepDirective []] ++
        LogLine.measResult "gain" 5 (.scalar 3) none none :: []) =
      .error .StepOutOfRange :=
  meas_step_out_of_range
    [LogLine.stepDirective [], LogLine.stepDirective [], LogLine.stepDirective []]
    [] "gain" 5 (.scalar 3) none none
    (LogReaderState.mk ⟨[(1, []), (2, []), (3, [])]⟩ []) rfl (by decide)

/-- Modelled from the spec: the classified lines of a plot-export file (spec 4.5):
the header row, a step-boundary marker carrying the step ordinal, or a data row with
its cell texts. -/
inductive ExportLine where
  | headerRow (cols : List String)
  | stepMarker (step : Nat)
  | dataRow (cells : List String)
deriving DecidableEq, Repr

/-- Modelled from the spec: body of the Export Reformatter (spec 4.5): each data row
must match the header column count and is emitted with the current step ordinal
prepended as a new leading column; a boundary marker switches to its step ordinal; a
repeated header row matches no grammar; any mismatched row aborts with
`ColumnCountMismatch`. -/
def reformat_rows (ncols : Nat) (step : Nat) :
    List ExportLine → Except ParseError (List (Nat × List String))
  | [] => .ok []
  | .stepMarker n :: rest => reformat_rows ncols n rest
  | .headerRow _ :: _ => .error .UnsupportedFormat
  | .dataRow cells :: rest =>
    if cells.length = ncols then
      match reformat_rows ncols step rest with
      | .ok rows => .ok ((step, cells) :: rows)
      | .error e => .error e
    else .error .ColumnCountMismatch

/-- Modelled from the spec: `reformat_LTSpice_export` (module `PyLTSpice.log.ltsteps`,
not under the sources): read the header row once, then rewrite the step-delimited
blocks into one flat table, starting at step 1 for a file whose first block carries
no marker; a file not starting with a header row matches no grammar (spec 4.5). -/
def reformat_LTSpice_export (lines : List ExportLine) :
    Except ParseError (List (Nat × List String)) :=
  match lines with
  | .headerRow cols :: rest => reformat_rows cols.length 1 rest
  | _ => .error .UnsupportedFormat

/-- Modelled from the spec: the classified lines of a measurement-script output file
(spec 4.6): a `Measurement: name` block header, the column-header line, or a data
row carrying its step index, value and optional range. -/
inductive MoutLine where
  | measHeader (name : String)
  | colHeader (cols : List String)
  | dataRow (step : Nat) (value : NumValue) (range_from range_to : Option ℚ)
deriving DecidableEq, Repr

/-- Modelled from the spec: the scan of the Measurement-Script Parser (spec 4.6):
each block header registers the measurement name the following rows belong to; a
data row before any block header matches no grammar; when an external Step Table
recovered from a companion log is supplied, a row whose step index does not occur in
it fails with `StepOutOfRange`. -/
def read_mout_lines (step_set : Option StepTable) (current : Option String)
    (acc : List MeasRecord) : List MoutLine → Except ParseError (List MeasRecord)
  | [] => .ok acc
  | .measHeader name :: rest => read_mout_lines step_set (some name) acc rest
  | .colHeader _ :: rest => read_mout_lines step_set current acc rest
  | .dataRow k v f t :: rest =>
    match current with
    | none => .error .UnsupportedFormat
    | some name =>
      match step_set with
      | some tbl =>
        if (tbl.steps.map Prod.fst).contains k then
          read_mout_lines step_set current (acc ++ [⟨name, k, v, f, t⟩]) rest
        else .error .StepOutOfRange
      | none => read_mout_lines step_set current (acc ++ [⟨name, k, v, f, t⟩]) rest

/-- Modelled from the spec: the Measurement-Script Parser over a whole file, with the
optional external Step Table injected (spec 4.6). -/
def read_mout (step_set : Option StepTable) (lines : List MoutLine) :
    Except ParseError (List MeasRecord) :=
  read_mout_lines step_set none [] lines

/-- Modelled from the spec: `export_data`, the Flat Table export (spec 4.7): one row
per measurement record in parse order, carrying the step index as join key, the
parameters of that step from the Step Table, and the record. -/
def export_data (st : LogReaderState) : List (Nat × StepParams × MeasRecord) :=
  st.measurements.map fun r =>
    (r.step, (st.stepset.steps.lookup r.step).getD [], r)

/-- Modelled from the spec: whole-file processing of a log file: parse, then export
only on success; a parse error aborts the run and no output is produced (spec 7). -/
def process_log_file (read_measures : Bool) (lines : List LogLine) :
    Option (List (Nat × StepParams × MeasRecord)) :=
  match read_log read_measures lines with
  | .ok st => some (export_data st)
  | .error _ => none

/-- Modelled from the spec: whole-file processing of a plot-export file: reformat,
then write only on success (spec 7). -/
def process_export_file (lines : List ExportLine) :
    Option (List (Nat × List String)) :=
  match reformat_LTSpice_export lines with
  | .ok rows => some rows
  | .error _ => none

/-- Modelled from the spec: whole-file processing of a measurement-script file:
parse, then export only on success (spec 7). -/
def process_mout_file (step_set : Option StepTable) (lines : List MoutLine) :
    Option (List MeasRecord) :=
  match read_mout step_set lines with
  | .ok recs => some recs
  | .error _ => none

/-- C7: for every input file and every parser — log, export-reformat and
measurement-script — a parse-time error aborts the whole-file parse and no partial
table is ever exported: the processing result carries no rows at all. -/
theorem no_partial_export :
    (∀ rm lines e, read_log rm lines = .error e →
      process_log_file rm lines = none) ∧
    (∀ lines e, reformat_LTSpice_export lines = .error e →
      process_export_file lines = none) ∧
    (∀ ss lines e, read_mout ss lines = .error e →
      process_mout_file ss lines = none) := by
  refine ⟨?_, ?_, ?_⟩
  · intro rm lines e h
    simp only [process_log_file, h]
  · intro lines e h
    simp only [process_export_file, h]
  · intro ss lines e h
    simp only [process_mout_file, h]

/-- Closed instance of `no_partial_export`: a log whose only measurement references
step 5 with no steps defined fails, and nothing is exported. -/
theorem no_partial_export_witness :
    process_log_file true [LogLine.measResult "x" 5 (.scalar 0) none none] = none :=
  no_partial_export.1 true [LogLine.measResult "x" 5 (.scalar 0) none none]
    .StepOutOfRange rfl

/-- Python `s.replace(pat, rep)` for a non-empty pattern: replace each
non-overlapping occurrence, scanning left to right. -/
def pyReplace (pat rep : PyStr) : PyStr → PyStr
  | [] => []
  | c :: cs =>
    if h : pat ≠ [] ∧ pat.isPrefixOf (c :: cs) = true then
      rep ++ pyReplace pat rep ((c :: cs).drop pat.length)
    else
      c :: pyReplace pat rep cs
termination_by l => l.length
decreasing_by
  · have hpos : 0 < pat.length := List.length_pos.mpr h.1
    simp only [List.length_drop, List.length_cons]
    omega
  · simp only [List.length_cons]
    omega

/-- Whether `pat` occurs as a contiguous substring of `l`. -/
def containsSub (pat : PyStr) : PyStr → Bool
  | [] => pat.isPrefixOf []
  | c :: cs => pat.isPrefixOf (c :: cs) || containsSub pat cs

theorem pyReplace_of_not_contains (pat rep l : PyStr)
    (h : containsSub pat l = false) : pyReplace pat rep l = l := by
  induction l with
  | nil => rw [pyReplace]
  | cons c cs ih =>
    rw [containsSub] at h
    rcases Bool.or_eq_false_iff.mp h with ⟨h1, h2⟩
    rw [pyReplace, dif_neg]
    · rw [ih h2]
    · intro hc
      rw [h1] at hc
      exact Bool.false_ne_true hc.2

theorem lookup_mem {α β : Type} [BEq α] [LawfulBEq α] {l : List (α × β)} {k : α}
    {v : β} (h : l.lookup k = some v) : (k, v) ∈ l := by
  induction l with
  | nil => cases h
  | cons a as ih =>
    obtain ⟨k1, v1⟩ := a
    simp only [List.lookup] at h
    cases hk : k == k1 with
    | true =>
      rw [hk] at h
      injection h with h
      have := eq_of_beq hk
      rw [this, h]
      exact List.mem_cons_self _ _
    | false =>
      rw [hk] at h
      exact List.mem_cons_of_mem _ (ih h)

/-- `LTspiceSimulator.ltspice_args` (`ltspice_simulator.py` lines 34-63): the mapping
from switch name to the command-line strings it contributes; the `run` entry of the
original (the only one whose template held a `{path}` placeholder) is commented out
and therefore absent. -/
def ltspice_args : List (String × List String) :=
  [("alt", ["-alt"]),
   ("ascii", ["-ascii"]),
   ("big", ["-big"]),
   ("encrypt", ["-encrypt"]),
   ("fastaccess", ["-FastAccess"]),
   ("FixUpSchematicFonts", ["-FixUpSchematicFonts"]),
   ("FixUpSymbolFonts", ["-FixUpSymbolFonts"]),
   ("ini", ["- ini", "<path>"]),
   ("I", ["-I<path>"]),
   ("max", ["-max"]),
   ("netlist", ["-netlist"]),
   ("norm", ["-norm"]),
   ("PCBnetlist", ["-PCBnetlist"]),
   ("SOI", ["-SOI"]),
   ("sync", ["-sync"]),
   ("uninstall", ["-uninstall"])]

/-- `add_command_line_switch` (`ltspice_simulator.py` lines 141-144): when the switch
is a key of `ltspice_args`, every template string gets the `{path}` placeholder
substituted by `path` and the results are appended to `cmdline_switches`; the
non-key branch defers to the base class and is outside this model. -/
def add_command_line_switch (cmdline_switches : List PyStr) (switch : String)
    (path : PyStr) : List PyStr :=
  match ltspice_args.lookup switch with
  | some switches =>
    cmdline_switches ++ switches.map (fun sw => pyReplace (str "{path}") path (str sw))
  | none => cmdline_switches

/-- C9: no stored switch template contains the `{path}` placeholder that the
replacement step looks for, so for every switch that is a key of `ltspice_args` and
any two values of the path argument, `add_command_line_switch` appends exactly the
same strings to `cmdline_switches`: the resulting command line is independent of
`path`. -/
theorem add_switch_path_independent :
    (∀ p, p ∈ ltspice_args → ∀ sw, sw ∈ p.2 →
      containsSub (str "{path}") (str sw) = false) ∧
    (∀ switch tmpl, ltspice_args.lookup switch = some tmpl →
      ∀ cmdline path1 path2,
        add_command_line_switch cmdline switch path1 =
          add_command_line_switch cmdline switch path2) := by
  have hno : ∀ p, p ∈ ltspice_args → ∀ sw, sw ∈ p.2 →
      containsSub (str "{path}") (str sw) = false := by decide
  refine ⟨hno, ?_⟩
  intro switch tmpl hlook cmdline path1 path2
  have hmem := lookup_mem hlook
  simp only [add_command_line_switch, hlook]
  congr 1
  apply List.map_congr_left
  intro sw hsw
  rw [pyReplace_of_not_contains _ _ _ (hno _ hmem sw hsw),
    pyReplace_of_not_contains _ _ _ (hno _ hmem sw hsw)]

/-- Closed instance of `add_switch_path_independent` at the switch `alt` and two
different paths. -/
theorem add_switch_path_independent_witness :
    add_command_line_switch [] "alt" (str "a") =
      add_command_line_switch [] "alt" (str "b") :=
  add_switch_path_independent.2 "alt" ["-alt"] rfl [] (str "a") (str "b")

/-- Platforms distinguished by `sys.platform` in `ltspice_simulator.py`. -/
inductive Platform where
  | linux
  | darwin
  | windows
deriving DecidableEq, Repr

/-- A `pathlib.Path`, modelled as its stem together with its suffix (the final
extension, dot included). -/
structure FsPath where
  stem : PyStr
  suffix : PyStr
deriving DecidableEq, Repr

/-- `Path.with_suffix`: replace the suffix. -/
def with_suffix (p : FsPath) (s : PyStr) : FsPath := ⟨p.stem, s⟩

/-- The exceptions relevant to `create_netlist`. -/
inductive NetlistError where
  | runtimeError (msg : String)
  | notImplementedError (msg : String)
deriving DecidableEq, Repr

/-- `create_netlist` (`ltspice_simulator.py` lines 156-174): on darwin a
`NotImplementedError` is constructed but not raised (line 161 lacks the `raise`
keyword), so every platform falls through to running the `-netlist` conversion
command; `run_result` is the exit status of `run_function` and `net_exists` whether
the `.net` sibling of the circuit exists afterwards.  Only exit status 0 with the
file present returns the path with suffix `.net`; anything else raises
`RuntimeError`. -/
def create_netlist (platform : Platform) (circuit_file : FsPath)
    (run_result : Int) (net_exists : Bool) : Except NetlistError FsPath :=
  let _unraised : Option NetlistError :=
    if platform = .darwin then
      some (.notImplementedError
        "In this platform LTSpice does not have netlist generation capabilities")
    else none
  if run_result = 0 ∧ net_exists = true then
    .ok (with_suffix circuit_file (str ".net"))
  else .error (.runtimeError "Failed to create netlist")

/-- C10: on every platform — darwin included — `create_netlist` never raises
`NotImplementedError` (the constructed exception is discarded) and behaves exactly
as on the other platforms: it returns the circuit path with suffix `.net` when the
conversion command returns 0 and that file exists, and raises `RuntimeError`
otherwise. -/
theorem create_netlist_never_notimplemented (platform : Platform)
    (circuit_file : FsPath) (run_result : Int) (net_exists : Bool) :
    (∀ msg, create_netlist platform circuit_file run_result net_exists ≠
      .error (.notImplementedError msg)) ∧
    (create_netlist platform circuit_file run_result net_exists =
      create_netlist .darwin circuit_file run_result net_exists) ∧
    (run_result = 0 ∧ net_exists = true →
      create_netlist platform circuit_file run_result net_exists =
        .ok (with_suffix circuit_file (str ".net"))) ∧
    (¬(run_result = 0 ∧ net_exists = true) →
      create_netlist platform circuit_file run_result net_exists =
        .error (.runtimeError "Failed to create netlist")) := by
  by_cases h : run_result = 0 ∧ net_exists = true
  · simp [create_netlist, h]
  · simp [create_netlist, h]

/-- Closed instance of `create_netlist_never_notimplemented`: on darwin with a
successful conversion the `.net` path is returned. -/
theorem create_netlist_never_notimplemented_witness :
    create_netlist .darwin ⟨str "circ", str ".asc"⟩ 0 true =
      .ok (with_suffix ⟨str "circ", str ".asc"⟩ (str ".net")) :=
  (create_netlist_never_notimplemented .darwin ⟨str "circ", str ".asc"⟩ 0 true).2.2.1
    ⟨rfl, rfl⟩

end PyLTSpice
